import Mathlib

/-!
Verification development for `eessi_software_reproduce_stack.py` from the
EESSI software-layer-scripts repository.

The Python script is shallowly embedded:
* filesystem reads (`os.listdir`, `bz2.open`, `glob.glob`) become explicit
  input parameters holding the data the call would have returned;
* raised exceptions become `Except.error` (or `none` for the bare
  `AttributeError` crash in `get_easybuild_version`);
* `datetime` values become proleptic-Gregorian microsecond counts
  (`datetime.strptime` / subtraction in CPython use exactly this calendar);
* Python floats (`total_seconds()/60`) are modelled as exact rationals;
* output files opened in append mode become a map `String → String`
  to which each write appends.
-/

namespace EESSIReproduce

/-! ### Calendar model (proleptic Gregorian, as used by `datetime`) -/

def isLeapYear (y : Nat) : Bool :=
  (y % 4 == 0 && y % 100 != 0) || y % 400 == 0

def daysInMonth (y m : Nat) : Nat :=
  if m = 2 then (if isLeapYear y then 29 else 28)
  else if m = 4 ∨ m = 6 ∨ m = 9 ∨ m = 11 then 30
  else 31

def cumDaysBeforeMonth (m : Nat) : Nat :=
  [0, 31, 59, 90, 120, 151, 181, 212, 243, 273, 304, 334].getD (m - 1) 0

def leapsBefore (n : Nat) : Nat := n / 4 - n / 100 + n / 400

/-- Days since 0001-01-01 (= Python `datetime.toordinal() - 1`). -/
def daysFromYear1 (y m d : Nat) : Nat :=
  365 * (y - 1) + leapsBefore (y - 1) + cumDaysBeforeMonth m +
    (if 2 < m ∧ isLeapYear y then 1 else 0) + (d - 1)

structure Timestamp where
  year : Nat
  month : Nat
  day : Nat
  hour : Nat
  minute : Nat
  second : Nat
  micro : Nat
deriving DecidableEq, Repr

/-- Range validation as enforced by `datetime.strptime` / the `datetime`
constructor (`MINYEAR = 1`, `MAXYEAR = 9999`, seconds capped at 59). -/
def validTimestamp (t : Timestamp) : Bool :=
  1 ≤ t.year && t.year ≤ 9999 && 1 ≤ t.month && t.month ≤ 12 &&
  1 ≤ t.day && t.day ≤ daysInMonth t.year t.month &&
  t.hour ≤ 23 && t.minute ≤ 59 && t.second ≤ 59 && t.micro ≤ 999999

/-- A `datetime` value collapsed to microseconds since 0001-01-01 00:00:00;
`datetime` comparison and subtraction coincide with comparison and
subtraction of this count. -/
def absMicro (t : Timestamp) : Nat :=
  (((daysFromYear1 t.year t.month t.day * 24 + t.hour) * 60 + t.minute) * 60
    + t.second) * 1000000 + t.micro

/-! ### Character-level scanning used to embed the two `re.search` calls -/

def isDigitCh (c : Char) : Bool := '0' ≤ c && c ≤ '9'

/-- Python `\s` on the ASCII range (the log files are ASCII). -/
def isSpaceCh (c : Char) : Bool :=
  c == ' ' || c == '\t' || c == '\n' || c == '\x0d' || c == '\x0c' || c == '\x0b'

def digitsVal (ds : List Char) : Nat :=
  ds.foldl (fun n c => n * 10 + (c.toNat - 48)) 0

/-- Exactly `n` digits, returning them and the rest of the input. -/
def expectDigits : Nat → List Char → Option (List Char × List Char)
  | 0, cs => some ([], cs)
  | _ + 1, [] => none
  | n + 1, c :: cs =>
    if isDigitCh c then (expectDigits n cs).map (fun p => (c :: p.1, p.2)) else none

def expectChar (ch : Char) : List Char → Option (List Char)
  | [] => none
  | c :: cs => if c = ch then some cs else none

/-- Maximal run of digits (`[0-9]+` with nothing after it that digits could
satisfy, so greedy matching is exact). -/
def takeDigits : List Char → List Char × List Char
  | [] => ([], [])
  | c :: cs =>
    if isDigitCh c then
      let p := takeDigits cs
      (c :: p.1, p.2)
    else ([], c :: cs)

/-- `\s+` (greedy; the following pattern element is a digit, which is never
whitespace, so greedy matching is exact). -/
def takeSpaces1 : List Char → Option (List Char)
  | [] => none
  | c :: cs => if isSpaceCh c then some (cs.dropWhile isSpaceCh) else none

/-- The capture group of
`==\s+([0-9]\x7b4\x7d-[0-9]\x7b2\x7d-[0-9]\x7b2\x7d [0-9]\x7b2\x7d:[0-9]\x7b2\x7d:[0-9]\x7b2\x7d,[0-9]+)`
matched at the current position, after the leading `==` and `\s+`. -/
def matchTsBody (cs : List Char) : Option (List Char) := do
  let (y, r) ← expectDigits 4 cs
  let r ← expectChar '-' r
  let (mo, r) ← expectDigits 2 r
  let r ← expectChar '-' r
  let (d, r) ← expectDigits 2 r
  let r ← expectChar ' ' r
  let (h, r) ← expectDigits 2 r
  let r ← expectChar ':' r
  let (mi, r) ← expectDigits 2 r
  let r ← expectChar ':' r
  let (s, r) ← expectDigits 2 r
  let r ← expectChar ',' r
  let (us, _) := takeDigits r
  if us.isEmpty then none
  else
    some (y ++ '-' :: mo ++ '-' :: d ++ ' ' :: h ++ ':' :: mi ++ ':' :: s ++ ',' :: us)

def matchTimestampAt : List Char → Option (List Char)
  | '=' :: '=' :: rest => do
    let r ← takeSpaces1 rest
    matchTsBody r
  | _ => none

/-- `re.search` scans left-to-right for the first position where the
pattern matches; returns the capture group. -/
def searchTimestamp : List Char → Option (List Char)
  | [] => none
  | c :: cs =>
    match matchTimestampAt (c :: cs) with
    | some g => some g
    | none => searchTimestamp cs

/-- The literal pattern text, as interpolated into the error message. -/
def rePatternTs : String :=
  "==\\s+([0-9]\x7b4\x7d-[0-9]\x7b2\x7d-[0-9]\x7b2\x7d [0-9]\x7b2\x7d:[0-9]\x7b2\x7d:[0-9]\x7b2\x7d,[0-9]+)"

def malformedMsg (line : String) : String :=
  "Failed to find pattern " ++ rePatternTs ++ " in line " ++ line

/-- `datetime.strptime(s, "%Y-%m-%d %H:%M:%S,%f")` on a capture-group
string: fixed-width fields, `%f` takes 1–6 digits right-padded with zeros
to microseconds, the whole string must be consumed, ranges are checked. -/
def strptimeLog (s : String) : Option Timestamp := do
  let cs := s.data
  let (y, r) ← expectDigits 4 cs
  let r ← expectChar '-' r
  let (mo, r) ← expectDigits 2 r
  let r ← expectChar '-' r
  let (d, r) ← expectDigits 2 r
  let r ← expectChar ' ' r
  let (h, r) ← expectDigits 2 r
  let r ← expectChar ':' r
  let (mi, r) ← expectDigits 2 r
  let r ← expectChar ':' r
  let (sec, r) ← expectDigits 2 r
  let r ← expectChar ',' r
  let (us, r) := takeDigits r
  if us.isEmpty || 6 < us.length || !r.isEmpty then none
  else
    let t : Timestamp :=
      ⟨digitsVal y, digitsVal mo, digitsVal d, digitsVal h, digitsVal mi,
        digitsVal sec, digitsVal us * 10 ^ (6 - us.length)⟩
    if validTimestamp t then some t else none

/-- `(parse last) - (parse first)` as `total_seconds()/60`, exactly. -/
def durMinutes (t1 t2 : Timestamp) : ℚ :=
  (((absMicro t2 : ℤ) - (absMicro t1 : ℤ) : ℤ) : ℚ) / 60000000

/-- `get_build_duration` (source lines 57–90).  `file` is the path handed
to the function; `lines` are the decompressed, newline-stripped lines the
streaming loop would have seen.  `first_line`/`last_line` are the head and
last element; failures to match raise `ValueError` with a message naming
the pattern and the offending line (not the path). -/
def get_build_duration (file : String) (lines : List String) : Except String ℚ :=
  match lines with
  | [] => Except.error "TypeError: expected string or bytes-like object"
  | first :: rest =>
    let lastLine := (first :: rest).getLast (List.cons_ne_nil first rest)
    match searchTimestamp first.data with
    | none => Except.error (malformedMsg first)
    | some g1 =>
      match searchTimestamp lastLine.data with
      | none => Except.error (malformedMsg lastLine)
      | some g2 =>
        -- `strptime(end) - strptime(start)`: the end expression is evaluated first
        match strptimeLog (String.mk g2), strptimeLog (String.mk g1) with
        | some t2, some t1 => Except.ok (durMinutes t1 t2)
        | _, _ => Except.error "ValueError: time data does not match format %Y-%m-%d %H:%M:%S,%f"

/-! ### Builder-version extraction -/

/-- Capture group of `This is EasyBuild ([0-9]+\.[0-9]+\.[0-9]+)` at the
current position. -/
def matchVersionAt (cs : List Char) : Option (List Char) :=
  let lit := "This is EasyBuild ".data
  if lit.isPrefixOf cs then
    (do
      let r := cs.drop lit.length
      let (a, r) := takeDigits r
      if a.isEmpty then none
      else do
        let r ← expectChar '.' r
        let (b, r) := takeDigits r
        if b.isEmpty then none
        else do
          let r ← expectChar '.' r
          let (c, _) := takeDigits r
          if c.isEmpty then none
          else some (a ++ '.' :: b ++ '.' :: c))
  else none

def searchVersion : List Char → Option (List Char)
  | [] => none
  | c :: cs =>
    match matchVersionAt (c :: cs) with
    | some g => some g
    | none => searchVersion cs

/-- `get_easybuild_version` (source lines 93–106).  Python runs
`re.search(...).group(1)`; when the marker is absent `re.search` returns
`None` and `.group` raises a bare `AttributeError` carrying no path or
diagnostic — modelled as `none`.  `file` is the path (unused by the body),
`fileLines` the decompressed file contents; `readline()` of an empty file
yields `""`. -/
def get_easybuild_version (file : String) (fileLines : List String) : Option String :=
  (searchVersion (fileLines.headD "").data).map String.mk

/-! ### Attempt-directory timestamp names, `%Y%m%d_%H%M%SUTC` -/

def strptimeDir (s : String) : Option Timestamp := do
  let cs := s.data
  let (y, r) ← expectDigits 4 cs
  let (mo, r) ← expectDigits 2 r
  let (d, r) ← expectDigits 2 r
  let r ← expectChar '_' r
  let (h, r) ← expectDigits 2 r
  let (mi, r) ← expectDigits 2 r
  let (sec, r) ← expectDigits 2 r
  let r ← expectChar 'U' r
  let r ← expectChar 'T' r
  let r ← expectChar 'C' r
  if !r.isEmpty then none
  else
    let t : Timestamp :=
      ⟨digitsVal y, digitsVal mo, digitsVal d, digitsVal h, digitsVal mi, digitsVal sec, 0⟩
    if validTimestamp t then some t else none

def epochTs : Timestamp := ⟨1970, 1, 1, 0, 0, 0, 0⟩

/-- `strptime("19700101_000000UTC", "%Y%m%d_%H%M%SUTC")` as microseconds. -/
def epochMicro : Nat := absMicro epochTs

/-! ### Data model: one entry of `software_info` (source lines 169–175) -/

structure SWRec where
  /-- The registry key `software_name + "-" + software_version`. -/
  name : String
  /-- `initial_build_time` as microseconds since 0001-01-01. -/
  initial_build_time : Nat
  build_duration : ℚ
  easybuild_version : String
  easyblock_path : String
  easyconfig_path : String
deriving DecidableEq, Repr

/-! ### Directory crawler: the per-version body of `inner_loop`
(source lines 126–175) -/

/-- The filesystem data one iteration of the `inner_loop` version loop
reads.  `attempts` is `os.listdir(software_version_dir)` exactly as the OS
returned it (POSIX specifies no order); the glob-match lists pair each
matching path with its decompressed line contents. -/
structure VersionDirInput where
  dirPath : String
  software_version : String
  attempts : List String
  firstGlobMatches : List (String × List String)
  lastGlobMatches : List (String × List String)

/-- One iteration of the version loop inside `inner_loop`: builds the
`SWRec` for `(software_name, software_version)`.  Note lines 135 and 153
of the source take `os.listdir(...)[0]` and `os.listdir(...)[-1]` without
sorting: the model faithfully uses the head and last element of
`attempts` in the order the OS returned them. -/
def processVersionDir (software_name : String) (eb_override_version : Option String)
    (vd : VersionDirInput) : Except String SWRec :=
  let override_easybuild_version := software_name == "EasyBuild" && eb_override_version.isSome
  match vd.attempts.head? with
  | none => Except.error "IndexError: list index out of range"
  | some firstAttempt =>
    match strptimeDir firstAttempt with
    | none =>
      Except.error ("ValueError: time data " ++ firstAttempt ++
        " does not match format %Y%m%d_%H%M%SUTC")
    | some ts0 =>
      if vd.firstGlobMatches.length ≠ 1 then
        Except.error ("Expected only one file to match the first-attempt glob for " ++
          software_name)
      else
        match vd.firstGlobMatches.head? with
        | none => Except.error "IndexError: list index out of range"
        | some firstLog =>
          match get_build_duration firstLog.1 firstLog.2 with
          | Except.error e => Except.error e
          | Except.ok build_duration =>
            let initial_build_time :=
              if override_easybuild_version then absMicro epochTs else absMicro ts0
            match vd.attempts.getLast? with
            | none => Except.error "IndexError: list index out of range"
            | some lastAttempt =>
              let lastDir := vd.dirPath ++ "/" ++ lastAttempt
              let versionOrErr : Except String String :=
                if override_easybuild_version then
                  Except.ok (eb_override_version.getD "")
                else if vd.lastGlobMatches.length ≠ 1 then
                  Except.error ("Expected only one file to match the last-attempt glob for " ++
                    software_name)
                else
                  match vd.lastGlobMatches.head? with
                  | none => Except.error "IndexError: list index out of range"
                  | some lastLog =>
                    match get_easybuild_version lastLog.1 lastLog.2 with
                    | none =>
                      Except.error "AttributeError: NoneType object has no attribute group"
                    | some v => Except.ok v
              match versionOrErr with
              | Except.error e => Except.error e
              | Except.ok easybuild_version =>
                Except.ok
                  { name := software_name ++ "-" ++ vd.software_version
                    initial_build_time := initial_build_time
                    build_duration := build_duration
                    easybuild_version := easybuild_version
                    easyblock_path := lastDir ++ "/easybuild/reprod/easyblocks/*.py"
                    easyconfig_path := lastDir ++ "/easybuild/" ++ software_name ++ "-" ++
                      vd.software_version ++ ".eb" }

/-! ### Registry merge (source line 196)
`software_info = {k: v for d in software_info_list if d for k, v in d.items()}`:
a dict comprehension, so a later occurrence of a key silently overwrites an
earlier one ("laatste dict bepaalt de waarde"). -/

/-- Python dict insertion: update in place if the key is present, else
append. -/
def dictInsertKV (l : List (String × SWRec)) (kv : String × SWRec) :
    List (String × SWRec) :=
  if l.any (fun p => p.1 == kv.1) then
    l.map (fun p => if p.1 == kv.1 then kv else p)
  else l ++ [kv]

def lookupReg (l : List (String × SWRec)) (k : String) : Option SWRec :=
  (l.find? (fun p => p.1 == k)).map Prod.snd

/-- The merge of the per-worker dicts.  The `if d` clause skips empty
dicts; insertion order is dict order, later dicts overwrite. -/
def mergeRegistries (ds : List (List (String × SWRec))) : List (String × SWRec) :=
  ds.foldl (fun acc d => if d.isEmpty then acc else d.foldl dictInsertKV acc) []

/-! ### Chronological sorter (source line 203) -/

/-- `sorted(software_info.items(), key=lambda item: item[1]["initial_build_time"])`:
a stable ascending sort on the build-time key. -/
def sortChrono (recs : List SWRec) : List SWRec :=
  recs.mergeSort (fun a b => decide (a.initial_build_time ≤ b.initial_build_time))

/-! ### Segmentation engine (source lines 206–238) -/

structure Batch where
  filename : String
  seq : Nat
  label : Option String
  records : List SWRec
  total_duration : ℚ
deriving DecidableEq, Repr

structure SegState where
  sequence_number : Nat
  previous_eb_ver : Option String
  total_build_duration : ℚ
  build_duration_current_easystack : ℚ
  local_software_info : List SWRec
  outputs : List Batch
deriving Repr

def initSeg : SegState :=
  { sequence_number := 1
    previous_eb_ver := none
    total_build_duration := 0
    build_duration_current_easystack := 0
    local_software_info := []
    outputs := [] }

/-- Python `str(None) = "None"`, as f-string interpolation renders it. -/
def showVer : Option String → String
  | none => "None"
  | some s => s

/-- `f'easystack-{sequence_number}-eb-{previous_eb_ver}.yml'` (line 224/237). -/
def easystackFileName (seq : Nat) (ver : Option String) : String :=
  "easystack-" ++ toString seq ++ "-eb-" ++ showVer ver ++ ".yml"

def mkBatch (st : SegState) : Batch :=
  { filename := easystackFileName st.sequence_number st.previous_eb_ver
    seq := st.sequence_number
    label := st.previous_eb_ver
    records := st.local_software_info
    total_duration := st.build_duration_current_easystack }

/-- Lines 224–228: emit the open batch, reset the accumulators, bump the
sequence number. -/
def flushState (st : SegState) : SegState :=
  { st with
    outputs := st.outputs ++ [mkBatch st]
    build_duration_current_easystack := 0
    local_software_info := []
    sequence_number := st.sequence_number + 1 }

/-- Python dict insertion into `local_software_info` keyed by `name`. -/
def dictInsertRec (l : List SWRec) (r : SWRec) : List SWRec :=
  if l.any (fun x => x.name == r.name) then
    l.map (fun x => if x.name == r.name then r else x)
  else l ++ [r]

/-- Lines 230–234: add the record and update the running counters. -/
def addRec (st : SegState) (r : SWRec) : SegState :=
  { st with
    local_software_info := dictInsertRec st.local_software_info r
    build_duration_current_easystack := st.build_duration_current_easystack + r.build_duration
    total_build_duration := st.total_build_duration + r.build_duration
    previous_eb_ver := some r.easybuild_version }

/-- One iteration of the loop at lines 216–234. -/
def stepSeg (maxbt : ℚ) (st : SegState) (r : SWRec) : SegState :=
  let st1 :=
    if 0 < st.local_software_info.length ∧
        (some r.easybuild_version ≠ st.previous_eb_ver ∨
          maxbt < st.build_duration_current_easystack + r.build_duration) then
      flushState st
    else st
  addRec st1 r

/-- The full loop plus the unconditional final flush (lines 236–238): the
emitted batches, in emission order. -/
def runSegmentation (maxbt : ℚ) (recs : List SWRec) : List Batch :=
  (flushState (recs.foldl (stepSeg maxbt) initSeg)).outputs

/-! ### Manifest writer (source lines 109–118) -/

/-- Round-half-even to an integer and print, modelling `f"{x:.0f}"` on the
exact rational value. -/
def fmtF0 (q : ℚ) : String :=
  let n : ℤ := ⌊q⌋
  let frac : ℚ := q - n
  let r : ℤ :=
    if 1 / 2 < frac then n + 1
    else if frac < 1 / 2 then n
    else if n % 2 = 0 then n else n + 1
  toString r

/-- The byte content one `write_software_info` call appends to
`easystack_file`. -/
def write_software_info (localInfo : List SWRec) (easystack_file : String)
    (build_duration : ℚ) : String :=
  "# " ++ easystack_file ++ ": total build duration = " ++ fmtF0 build_duration ++
    " minutes\n" ++ "easyconfigs:\n" ++
  String.join (localInfo.map (fun info =>
    "  - " ++ info.easyconfig_path ++ ":\n" ++ "      options:\n" ++
      "        include-easyblocks: " ++ info.easyblock_path ++ "\n"))

/-- The ordered (filename, appended-bytes) writes of one run of the write
phase. -/
def runWrites (maxbt : ℚ) (recs : List SWRec) : List (String × String) :=
  (runSegmentation maxbt recs).map
    (fun b => (b.filename, write_software_info b.records b.filename b.total_duration))

/-- `open(easystack_file, "a")` followed by sequential writes: append the
bytes to whatever the file already holds. -/
def applyWrite (fs : String → String) (w : String × String) : String → String :=
  fun n => if n = w.1 then fs n ++ w.2 else fs n

/-- The whole write phase run against a filesystem state (file name ↦
current byte content, absent files = `""`). -/
def runPipeline (maxbt : ℚ) (recs : List SWRec) (fs : String → String) :
    String → String :=
  (runWrites maxbt recs).foldl applyWrite fs

def emptyFS : String → String := fun _ => ""

/-! ### Records used to instantiate witnesses -/

def wErlang : SWRec := ⟨"Erlang-26.2", 100, 60, "5.0.0", "/r/eb1/*.py", "/r/Erlang-26.2.eb"⟩

def wFoss : SWRec := ⟨"foss-2023b", 200, 50, "5.0.0", "/r/eb2/*.py", "/r/foss-2023b.eb"⟩

def wGcc : SWRec := ⟨"GCC-13.2.0", 300, 30, "5.1.1", "/r/eb3/*.py", "/r/GCC-13.2.0.eb"⟩

/-- The single batch `runSegmentation 240 [wErlang]` emits. -/
def wBatch : Batch :=
  ⟨easystackFileName 1 (some "5.0.0"), 1, some "5.0.0", [wErlang], 60⟩

/-- Ten records with pairwise-distinct builder versions: every record
starts a new batch, so a run over them emits ten manifests. -/
def cRecsTen : List SWRec :=
  [⟨"p1-1", 1, 0, "v1", "b", "c"⟩, ⟨"p2-1", 2, 0, "v2", "b", "c"⟩,
    ⟨"p3-1", 3, 0, "v3", "b", "c"⟩, ⟨"p4-1", 4, 0, "v4", "b", "c"⟩,
    ⟨"p5-1", 5, 0, "v5", "b", "c"⟩, ⟨"p6-1", 6, 0, "v6", "b", "c"⟩,
    ⟨"p7-1", 7, 0, "v7", "b", "c"⟩, ⟨"p8-1", 8, 0, "v8", "b", "c"⟩,
    ⟨"p9-1", 9, 0, "v9", "b", "c"⟩, ⟨"p10-1", 10, 0, "v10", "b", "c"⟩]

/-- The bytes a sequence of writes appends to file `f`, in order. -/
def writesAt (ws : List (String × String)) (f : String) : String :=
  String.join ((ws.filter (fun w => f = w.1)).map Prod.snd)

/-- A colliding registry key with two distinct records, for C7. -/
def cKey : String := "Foo-1.0"

def cV1 : SWRec := ⟨"Foo-1.0", 100, 0, "1.0.0", "/w1/b/*.py", "/w1/Foo-1.0.eb"⟩

def cV2 : SWRec := ⟨"Foo-1.0", 100, 0, "2.0.0", "/w2/b/*.py", "/w2/Foo-1.0.eb"⟩

/-- A version directory whose `os.listdir` result is not sorted: the
chronologically (and lexicographically) first attempt `20250101_…` comes
second in the listing.  POSIX guarantees no listing order. -/
def vdListdirUnsorted : VersionDirInput :=
  { dirPath := "/root/reprod/Foo/1.0"
    software_version := "1.0"
    attempts := ["20250102_000000UTC", "20250101_000000UTC"]
    firstGlobMatches := [("/root/reprod/Foo/1.0/20250102_000000UTC/easybuild/easybuild-Foo-x.log.bz2",
      ["== 2025-01-02 10:00:00,000 start", "== 2025-01-02 11:00:00,000 end"])]
    lastGlobMatches := [("/root/reprod/Foo/1.0/20250101_000000UTC/easybuild/easybuild-Foo-x.log.bz2",
      ["== 2025-01-01 09:00:00,000 main.py This is EasyBuild 5.1.1 (framework) on host h"])] }

/-- An `EasyBuild/5.1.1` version directory, used with an override
version. -/
def vdOverride : VersionDirInput :=
  { dirPath := "/root/reprod/EasyBuild/5.1.1"
    software_version := "5.1.1"
    attempts := ["20250610_120000UTC"]
    firstGlobMatches := [("/root/reprod/EasyBuild/5.1.1/20250610_120000UTC/easybuild/easybuild-EasyBuild-x.log.bz2",
      ["== 2025-06-10 12:00:00,000 start", "== 2025-06-10 12:30:00,000 end"])]
    lastGlobMatches := [("/root/reprod/EasyBuild/5.1.1/20250610_120000UTC/easybuild/easybuild-EasyBuild-x.log.bz2",
      ["== 2025-06-10 12:00:00,000 This is EasyBuild 5.1.0 x"])] }

/-- The record `processVersionDir "EasyBuild" (some "5.0.1") vdOverride`
produces. -/
def wOverrideRec : SWRec :=
  { name := "EasyBuild-5.1.1"
    initial_build_time := absMicro epochTs
    build_duration := durMinutes ⟨2025, 6, 10, 12, 0, 0, 0⟩ ⟨2025, 6, 10, 12, 30, 0, 0⟩
    easybuild_version := "5.0.1"
    easyblock_path := "/root/reprod/EasyBuild/5.1.1/20250610_120000UTC/easybuild/reprod/easyblocks/*.py"
    easyconfig_path := "/root/reprod/EasyBuild/5.1.1/20250610_120000UTC/easybuild/EasyBuild-5.1.1.eb" }

/-- A record with a genuine 2025 build time, later than the sentinel. -/
def wLate : SWRec :=
  ⟨"zlib-1.3", absMicro ⟨2025, 6, 11, 0, 0, 0, 0⟩, 10, "5.0.1", "/r/z/*.py", "/r/zlib-1.3.eb"⟩

/-- A mid-stream segmentation state: one open record, 60 minutes
accumulated. -/
def stW : SegState :=
  { sequence_number := 1
    previous_eb_ver := some "5.0.0"
    total_build_duration := 60
    build_duration_current_easystack := 60
    local_software_info := [wErlang]
    outputs := [] }

/-- A record whose (negative) log-derived duration is -30 minutes. -/
def rNeg : SWRec := ⟨"Bar-1.0", 400, -30, "5.0.0", "/r/bar/*.py", "/r/Bar-1.0.eb"⟩

/-! ### Helper lemmas about `dictInsertRec` -/

lemma dictInsertRec_ne_nil (l : List SWRec) (r : SWRec) : dictInsertRec l r ≠ [] := by
  unfold dictInsertRec
  split
  · rename_i h
    rcases l with _ | ⟨x, xs⟩
    · simp at h
    · simp
  · simp

lemma dictInsertRec_eq_append (l : List SWRec) (r : SWRec)
    (h : ∀ x ∈ l, x.name ≠ r.name) : dictInsertRec l r = l ++ [r] := by
  unfold dictInsertRec
  have hany : l.any (fun x => x.name == r.name) = false := by
    simp only [List.any_eq_false]
    intro x hx
    simpa using h x hx
  simp [hany]

lemma mem_dictInsertRec (l : List SWRec) (r x : SWRec)
    (hx : x ∈ dictInsertRec l r) : x ∈ l ∨ x = r := by
  unfold dictInsertRec at hx
  split at hx
  · rcases List.mem_map.mp hx with ⟨y, hy, hxy⟩
    by_cases hn : y.name == r.name
    · right
      rw [if_pos hn] at hxy
      exact hxy.symm
    · left
      rw [if_neg hn] at hxy
      exact hxy ▸ hy
  · rcases List.mem_append.mp hx with h | h
    · exact Or.inl h
    · exact Or.inr (by simpa using h)

/-! ### Structure of one engine step -/

lemma stepSeg_of_close (maxbt : ℚ) (st : SegState) (r : SWRec)
    (hc : 0 < st.local_software_info.length ∧
      (some r.easybuild_version ≠ st.previous_eb_ver ∨
        maxbt < st.build_duration_current_easystack + r.build_duration)) :
    stepSeg maxbt st r = addRec (flushState st) r := by
  simp [stepSeg, hc]

lemma stepSeg_of_keep (maxbt : ℚ) (st : SegState) (r : SWRec)
    (hc : ¬ (0 < st.local_software_info.length ∧
      (some r.easybuild_version ≠ st.previous_eb_ver ∨
        maxbt < st.build_duration_current_easystack + r.build_duration))) :
    stepSeg maxbt st r = addRec st r := by
  simp [stepSeg, hc]

/-! ### The key fold lemma: batches concatenate to the input stream -/

lemma seg_join (maxbt : ℚ) (recs : List SWRec) : ∀ (st : SegState),
    (∀ x ∈ st.local_software_info, x.name ∉ recs.map SWRec.name) →
    (recs.map SWRec.name).Nodup →
    ((flushState (recs.foldl (stepSeg maxbt) st)).outputs.map Batch.records).flatten =
      (st.outputs.map Batch.records).flatten ++ st.local_software_info ++ recs := by
  induction recs with
  | nil =>
    intro st _ _
    simp [flushState, mkBatch]
  | cons r rest ih =>
    intro st hdisj hnd
    rw [List.map_cons, List.nodup_cons] at hnd
    obtain ⟨hr, hrest⟩ := hnd
    rw [List.foldl_cons]
    by_cases hc : 0 < st.local_software_info.length ∧
        (some r.easybuild_version ≠ st.previous_eb_ver ∨
          maxbt < st.build_duration_current_easystack + r.build_duration)
    · rw [stepSeg_of_close maxbt st r hc]
      have hih := ih (addRec (flushState st) r)
        (by
          intro x hx
          have : x ∈ dictInsertRec [] r := by simpa [addRec, flushState] using hx
          have hx' : x = r := by
            rcases mem_dictInsertRec [] r x this with h | h
            · simp at h
            · exact h
          simpa [hx'] using hr)
        hrest
      rw [hih]
      simp [addRec, flushState, mkBatch, dictInsertRec]
    · rw [stepSeg_of_keep maxbt st r hc]
      have hins : dictInsertRec st.local_software_info r =
          st.local_software_info ++ [r] := by
        apply dictInsertRec_eq_append
        intro x hx
        have := hdisj x hx
        simp only [List.map_cons, List.mem_cons] at this
        intro hxe
        exact this (Or.inl hxe)
      have hih := ih (addRec st r)
        (by
          intro x hx
          rw [addRec] at hx
          simp only at hx
          rw [hins] at hx
          rcases List.mem_append.mp hx with h | h
          · have := hdisj x h
            simp only [List.map_cons, List.mem_cons] at this
            intro hmem
            exact this (Or.inr hmem)
          · have hx' : x = r := by simpa using h
            simpa [hx'] using hr)
        hrest
      rw [hih]
      simp [addRec, hins]

/-! ### Nonemptiness facts -/

lemma seg_local_ne_nil (maxbt : ℚ) (recs : List SWRec) (st : SegState)
    (h : recs ≠ []) :
    (recs.foldl (stepSeg maxbt) st).local_software_info ≠ [] := by
  induction recs generalizing st with
  | nil => exact absurd rfl h
  | cons r rest ih =>
    rw [List.foldl_cons]
    rcases rest with _ | ⟨r2, rest2⟩
    · simp only [List.foldl_nil]
      unfold stepSeg
      exact dictInsertRec_ne_nil _ _
    · exact ih _ (by simp)

lemma seg_outputs_records_ne_nil (maxbt : ℚ) (recs : List SWRec) (st : SegState)
    (hout : ∀ b ∈ st.outputs, b.records ≠ []) :
    ∀ b ∈ (recs.foldl (stepSeg maxbt) st).outputs, b.records ≠ [] := by
  induction recs generalizing st with
  | nil => simpa using hout
  | cons r rest ih =>
    rw [List.foldl_cons]
    apply ih
    intro b hb
    by_cases hc : 0 < st.local_software_info.length ∧
        (some r.easybuild_version ≠ st.previous_eb_ver ∨
          maxbt < st.build_duration_current_easystack + r.build_duration)
    · rw [stepSeg_of_close maxbt st r hc] at hb
      simp only [addRec, flushState] at hb
      rcases List.mem_append.mp hb with h | h
      · exact hout b h
      · have hb' : b = mkBatch st := by simpa using h
        subst hb'
        simp only [mkBatch]
        intro hnil
        rw [hnil] at hc
        simp at hc
    · rw [stepSeg_of_keep maxbt st r hc] at hb
      simp only [addRec] at hb
      exact hout b hb

lemma runSegmentation_ne_nil (maxbt : ℚ) (recs : List SWRec) :
    runSegmentation maxbt recs ≠ [] := by
  unfold runSegmentation flushState
  simp

lemma runSegmentation_records_ne_nil (maxbt : ℚ) (recs : List SWRec)
    (h : recs ≠ []) :
    ∀ b ∈ runSegmentation maxbt recs, b.records ≠ [] := by
  intro b hb
  unfold runSegmentation at hb
  simp only [flushState, List.mem_append] at hb
  rcases hb with hb | hb
  · exact seg_outputs_records_ne_nil maxbt recs initSeg (by simp [initSeg]) b hb
  · have hb' : b = mkBatch (recs.foldl (stepSeg maxbt) initSeg) := by simpa using hb
    subst hb'
    simp only [mkBatch]
    exact seg_local_ne_nil maxbt recs initSeg h

/-- C1: the concatenation, in emission order, of the records of all
emitted batches equals the full chronologically sorted registry, and a
final batch is always emitted on stream exhaustion. -/
theorem segmentation_preserves_registry (maxbt : ℚ) (recs : List SWRec)
    (hnd : (recs.map SWRec.name).Nodup) :
    ((runSegmentation maxbt (sortChrono recs)).map Batch.records).flatten =
        sortChrono recs ∧
      runSegmentation maxbt (sortChrono recs) ≠ [] := by
  have hperm : (sortChrono recs).Perm recs := List.mergeSort_perm recs _
  have hnd2 : ((sortChrono recs).map SWRec.name).Nodup :=
    ((hperm.map SWRec.name).symm).nodup hnd
  refine ⟨?_, runSegmentation_ne_nil _ _⟩
  have h := seg_join maxbt (sortChrono recs) initSeg (by simp [initSeg]) hnd2
  simpa [runSegmentation, initSeg] using h

/-- Witness for C1 at a concrete two-record registry. -/
theorem segmentation_preserves_registry_witness :
    (List.map SWRec.name [wErlang, wFoss]).Nodup ∧
      (((runSegmentation 240 (sortChrono [wErlang, wFoss])).map Batch.records).flatten =
          sortChrono [wErlang, wFoss] ∧
        runSegmentation 240 (sortChrono [wErlang, wFoss]) ≠ []) :=
  ⟨by simp [wErlang, wFoss], segmentation_preserves_registry 240 [wErlang, wFoss]
    (by simp [wErlang, wFoss])⟩

/-! ### C4: every batch carries exactly one builder version -/

lemma seg_version_invariant (maxbt : ℚ) (recs : List SWRec) : ∀ (st : SegState),
    (∀ b ∈ st.outputs, ∀ r ∈ b.records, some r.easybuild_version = b.label) →
    (∀ r ∈ st.local_software_info, some r.easybuild_version = st.previous_eb_ver) →
    (∀ b ∈ (recs.foldl (stepSeg maxbt) st).outputs, ∀ r ∈ b.records,
        some r.easybuild_version = b.label) ∧
      (∀ r ∈ (recs.foldl (stepSeg maxbt) st).local_software_info,
        some r.easybuild_version = (recs.foldl (stepSeg maxbt) st).previous_eb_ver) := by
  induction recs with
  | nil =>
    intro st hout hloc
    exact ⟨hout, hloc⟩
  | cons r rest ih =>
    intro st hout hloc
    rw [List.foldl_cons]
    by_cases hc : 0 < st.local_software_info.length ∧
        (some r.easybuild_version ≠ st.previous_eb_ver ∨
          maxbt < st.build_duration_current_easystack + r.build_duration)
    · rw [stepSeg_of_close maxbt st r hc]
      refine ih _ ?_ ?_
      · intro b hb rr hrr
        simp only [addRec, flushState] at hb
        rcases List.mem_append.mp hb with h | h
        · exact hout b h rr hrr
        · have hb' : b = mkBatch st := by simpa using h
          subst hb'
          exact hloc rr hrr
      · intro rr hrr
        simp only [addRec, flushState] at hrr ⊢
        rcases mem_dictInsertRec _ _ _ hrr with h | h
        · simp at h
        · simp [h]
    · rw [stepSeg_of_keep maxbt st r hc]
      refine ih _ ?_ ?_
      · intro b hb rr hrr
        simp only [addRec] at hb
        exact hout b hb rr hrr
      · intro rr hrr
        simp only [addRec] at hrr ⊢
        rcases mem_dictInsertRec _ _ _ hrr with h | h
        · -- the open batch was kept, so the versions matched
          have hlen : 0 < st.local_software_info.length :=
            List.length_pos.mpr (List.ne_nil_of_mem h)
          have hver : some r.easybuild_version = st.previous_eb_ver := by
            by_contra hne
            exact hc ⟨hlen, Or.inl hne⟩
          rw [hloc rr h, ← hver]
        · simp [h]

lemma runSegmentation_label (maxbt : ℚ) (recs : List SWRec) (b : Batch)
    (hb : b ∈ runSegmentation maxbt recs) :
    ∀ r ∈ b.records, some r.easybuild_version = b.label := by
  unfold runSegmentation at hb
  simp only [flushState, List.mem_append] at hb
  have hinv := seg_version_invariant maxbt recs initSeg
    (by simp [initSeg]) (by simp [initSeg])
  rcases hb with hb | hb
  · exact hinv.1 b hb
  · have hb' : b = mkBatch (recs.foldl (stepSeg maxbt) initSeg) := by simpa using hb
    subst hb'
    intro r hr
    exact hinv.2 r hr

lemma seg_filename_invariant (maxbt : ℚ) (recs : List SWRec) : ∀ (st : SegState),
    (∀ b ∈ st.outputs, b.filename = easystackFileName b.seq b.label) →
    ∀ b ∈ (recs.foldl (stepSeg maxbt) st).outputs,
      b.filename = easystackFileName b.seq b.label := by
  induction recs with
  | nil =>
    intro st h
    simpa using h
  | cons r rest ih =>
    intro st h
    rw [List.foldl_cons]
    refine ih _ ?_
    intro b hb
    by_cases hc : 0 < st.local_software_info.length ∧
        (some r.easybuild_version ≠ st.previous_eb_ver ∨
          maxbt < st.build_duration_current_easystack + r.build_duration)
    · rw [stepSeg_of_close maxbt st r hc] at hb
      simp only [addRec, flushState] at hb
      rcases List.mem_append.mp hb with hm | hm
      · exact h b hm
      · have hb' : b = mkBatch st := by simpa using hm
        subst hb'
        rfl
    · rw [stepSeg_of_keep maxbt st r hc] at hb
      simp only [addRec] at hb
      exact h b hb

lemma runSegmentation_filename (maxbt : ℚ) (recs : List SWRec) (b : Batch)
    (hb : b ∈ runSegmentation maxbt recs) :
    b.filename = easystackFileName b.seq b.label := by
  unfold runSegmentation at hb
  simp only [flushState, List.mem_append] at hb
  rcases hb with hb | hb
  · exact seg_filename_invariant maxbt recs initSeg (by simp [initSeg]) b hb
  · have hb' : b = mkBatch (recs.foldl (stepSeg maxbt) initSeg) := by simpa using hb
    subst hb'
    rfl

/-- C4: all records of an emitted batch share one `builder_version`, the
batch's label is exactly that version, the label appears in the batch's
filename, and the manifest written for the batch opens with a header
naming that filename. -/
theorem batch_single_builder_version (maxbt : ℚ) (recs : List SWRec) (b : Batch)
    (hb : b ∈ runSegmentation maxbt recs) :
    (∀ r ∈ b.records, some r.easybuild_version = b.label) ∧
      b.filename = easystackFileName b.seq b.label ∧
      (b.filename, write_software_info b.records b.filename b.total_duration) ∈
        runWrites maxbt recs ∧
      ∃ t, write_software_info b.records b.filename b.total_duration =
        "# " ++ b.filename ++ t := by
  refine ⟨runSegmentation_label maxbt recs b hb,
    runSegmentation_filename maxbt recs b hb, ?_, ?_⟩
  · exact List.mem_map.mpr ⟨b, hb, rfl⟩
  · refine ⟨": total build duration = " ++ fmtF0 b.total_duration ++ " minutes\n" ++
      "easyconfigs:\n" ++
      String.join (b.records.map (fun info =>
        "  - " ++ info.easyconfig_path ++ ":\n" ++ "      options:\n" ++
          "        include-easyblocks: " ++ info.easyblock_path ++ "\n")), ?_⟩
    simp [write_software_info, String.append_assoc]

/-- Witness for C4 at a concrete one-record run. -/
theorem batch_single_builder_version_witness :
    wBatch ∈ runSegmentation 240 [wErlang] ∧
      some wErlang.easybuild_version = wBatch.label := by
  have hb : wBatch ∈ runSegmentation 240 [wErlang] := by
    simp [runSegmentation, flushState, initSeg, stepSeg, addRec, mkBatch,
      dictInsertRec, wErlang, wBatch]
  exact ⟨hb, (batch_single_builder_version 240 [wErlang] wBatch hb).1 wErlang
    (by simp [wBatch])⟩

/-! ### C3: the duration budget -/

lemma seg_duration_invariant (maxbt : ℚ) (h0 : 0 ≤ maxbt) (recs : List SWRec) :
    ∀ (st : SegState),
    (∀ b ∈ st.outputs, b.total_duration ≤ maxbt ∨
      ∃ r, b.records = [r] ∧ b.total_duration = r.build_duration ∧
        maxbt < r.build_duration) →
    (st.build_duration_current_easystack ≤ maxbt ∨
      ∃ r, st.local_software_info = [r] ∧
        st.build_duration_current_easystack = r.build_duration) →
    (st.local_software_info = [] → st.build_duration_current_easystack = 0) →
    (∀ b ∈ (recs.foldl (stepSeg maxbt) st).outputs, b.total_duration ≤ maxbt ∨
      ∃ r, b.records = [r] ∧ b.total_duration = r.build_duration ∧
        maxbt < r.build_duration) ∧
      ((recs.foldl (stepSeg maxbt) st).build_duration_current_easystack ≤ maxbt ∨
        ∃ r, (recs.foldl (stepSeg maxbt) st).local_software_info = [r] ∧
          (recs.foldl (stepSeg maxbt) st).build_duration_current_easystack =
            r.build_duration) ∧
      ((recs.foldl (stepSeg maxbt) st).local_software_info = [] →
        (recs.foldl (stepSeg maxbt) st).build_duration_current_easystack = 0) := by
  induction recs with
  | nil =>
    intro st hout hloc hz
    exact ⟨hout, hloc, hz⟩
  | cons r rest ih =>
    intro st hout hloc hz
    rw [List.foldl_cons]
    by_cases hc : 0 < st.local_software_info.length ∧
        (some r.easybuild_version ≠ st.previous_eb_ver ∨
          maxbt < st.build_duration_current_easystack + r.build_duration)
    · rw [stepSeg_of_close maxbt st r hc]
      refine ih _ ?_ ?_ ?_
      · intro b hb
        simp only [addRec, flushState] at hb
        rcases List.mem_append.mp hb with h | h
        · exact hout b h
        · have hb' : b = mkBatch st := by simpa using h
          subst hb'
          simp only [mkBatch]
          by_cases hcm : st.build_duration_current_easystack ≤ maxbt
          · exact Or.inl hcm
          · rcases hloc with h1 | ⟨rr, hr1, hr2⟩
            · exact absurd h1 hcm
            · exact Or.inr ⟨rr, hr1, hr2, by rw [← hr2]; exact lt_of_not_le hcm⟩
      · right
        exact ⟨r, by simp [addRec, flushState, dictInsertRec],
          by simp [addRec, flushState]⟩
      · intro hnil
        exact absurd hnil (by
          simpa [addRec, flushState] using dictInsertRec_ne_nil ([] : List SWRec) r)
    · rw [stepSeg_of_keep maxbt st r hc]
      refine ih _ ?_ ?_ ?_
      · intro b hb
        simp only [addRec] at hb
        exact hout b hb
      · by_cases hl : st.local_software_info = []
        · right
          refine ⟨r, by simp [addRec, hl, dictInsertRec], ?_⟩
          simp [addRec, hz hl]
        · left
          have hlen : 0 < st.local_software_info.length := List.length_pos.mpr hl
          have hnc : ¬ maxbt < st.build_duration_current_easystack + r.build_duration := by
            intro hlt
            exact hc ⟨hlen, Or.inr hlt⟩
          simpa [addRec] using le_of_not_lt hnc
      · intro hnil
        exact absurd hnil (by simpa [addRec] using dictInsertRec_ne_nil _ r)

/-- C3: an emitted batch's `total_duration` is within the budget, except
for a batch holding exactly one record whose own `build_duration` alone
exceeds the budget (a record is never split). -/
theorem batch_duration_bounded (maxbt : ℚ) (h0 : 0 ≤ maxbt) (recs : List SWRec)
    (b : Batch) (hb : b ∈ runSegmentation maxbt recs) :
    b.total_duration ≤ maxbt ∨
      ∃ r, b.records = [r] ∧ b.total_duration = r.build_duration ∧
        maxbt < r.build_duration := by
  unfold runSegmentation at hb
  simp only [flushState, List.mem_append] at hb
  have hinv := seg_duration_invariant maxbt h0 recs initSeg
    (by simp [initSeg]) (Or.inl (by simp [initSeg]; exact h0)) (by simp [initSeg])
  rcases hb with hb | hb
  · exact hinv.1 b hb
  · have hb' : b = mkBatch (recs.foldl (stepSeg maxbt) initSeg) := by simpa using hb
    subst hb'
    simp only [mkBatch]
    by_cases hcm :
        (recs.foldl (stepSeg maxbt) initSeg).build_duration_current_easystack ≤ maxbt
    · exact Or.inl hcm
    · rcases hinv.2.1 with h1 | ⟨rr, hr1, hr2⟩
      · exact absurd h1 hcm
      · exact Or.inr ⟨rr, hr1, hr2, by rw [← hr2]; exact lt_of_not_le hcm⟩

/-- Witness for C3 at a concrete one-record run within budget. -/
theorem batch_duration_bounded_witness :
    (0 : ℚ) ≤ 240 ∧ wBatch ∈ runSegmentation 240 [wErlang] ∧
      (wBatch.total_duration ≤ 240 ∨
        ∃ r, wBatch.records = [r] ∧ wBatch.total_duration = r.build_duration ∧
          (240 : ℚ) < r.build_duration) := by
  have h0 : (0 : ℚ) ≤ 240 := by norm_num
  have hb : wBatch ∈ runSegmentation 240 [wErlang] := by
    simp [runSegmentation, flushState, initSeg, stepSeg, addRec, mkBatch,
      dictInsertRec, wErlang, wBatch]
  exact ⟨h0, hb, batch_duration_bounded 240 h0 [wErlang] wBatch hb⟩

/-! ### C6: sequence numbers and lexicographic filename order -/

lemma seg_seq_invariant (maxbt : ℚ) (recs : List SWRec) : ∀ (st : SegState),
    st.sequence_number = st.outputs.length + 1 →
    st.outputs.map Batch.seq = List.range' 1 st.outputs.length →
    (recs.foldl (stepSeg maxbt) st).sequence_number =
        (recs.foldl (stepSeg maxbt) st).outputs.length + 1 ∧
      (recs.foldl (stepSeg maxbt) st).outputs.map Batch.seq =
        List.range' 1 (recs.foldl (stepSeg maxbt) st).outputs.length := by
  induction recs with
  | nil =>
    intro st h1 h2
    exact ⟨h1, h2⟩
  | cons r rest ih =>
    intro st h1 h2
    rw [List.foldl_cons]
    by_cases hc : 0 < st.local_software_info.length ∧
        (some r.easybuild_version ≠ st.previous_eb_ver ∨
          maxbt < st.build_duration_current_easystack + r.build_duration)
    · rw [stepSeg_of_close maxbt st r hc]
      refine ih _ ?_ ?_
      · simp [addRec, flushState, h1]
      · simp only [addRec, flushState, List.map_append, List.length_append, h2, h1,
          List.map_cons, List.map_nil, mkBatch, List.length_cons, List.length_nil]
        rw [List.range'_concat]
        simp [Nat.add_comm]
    · rw [stepSeg_of_keep maxbt st r hc]
      exact ih _ (by simp [addRec, h1]) (by simp [addRec, h2])

lemma runSegmentation_seq (maxbt : ℚ) (recs : List SWRec) :
    (runSegmentation maxbt recs).map Batch.seq =
      List.range' 1 (runSegmentation maxbt recs).length := by
  obtain ⟨h1, h2⟩ := seg_seq_invariant maxbt recs initSeg (by simp [initSeg])
    (by simp [initSeg])
  unfold runSegmentation flushState
  simp only [List.map_append, List.length_append, h2, h1, List.map_cons,
    List.map_nil, mkBatch, List.length_cons, List.length_nil]
  rw [List.range'_concat]
  simp [Nat.add_comm]

lemma seq_of_map_range : ∀ (l : List Batch) (n k : Nat) (hk : k < l.length),
    l.map Batch.seq = List.range' n l.length → (l.get ⟨k, hk⟩).seq = n + k := by
  intro l
  induction l with
  | nil =>
    intro n k hk
    simp at hk
  | cons b bs ih =>
    intro n k hk hmap
    simp only [List.map_cons, List.length_cons] at hmap
    rw [List.range'_succ] at hmap
    injection hmap with hb hbs
    cases k with
    | zero => simpa using hb
    | succ k2 =>
      have hk2 : k2 < bs.length := Nat.lt_of_succ_lt_succ (by simpa using hk)
      have h2 := ih (n + 1) k2 hk2 hbs
      simp only [List.get_eq_getElem] at h2 ⊢
      simp only [List.getElem_cons_succ]
      omega

lemma runSegmentation_seq_get (maxbt : ℚ) (recs : List SWRec) (k : Nat)
    (hk : k < (runSegmentation maxbt recs).length) :
    ((runSegmentation maxbt recs).get ⟨k, hk⟩).seq = 1 + k :=
  seq_of_map_range _ 1 k hk (runSegmentation_seq maxbt recs)

/-- A strictly smaller character after a common run of characters gives
the strict lexicographic list order. -/
lemma listLtAppend (p : List Char) {a b : Char} (xs ys : List Char) (h : a < b) :
    p ++ a :: xs < p ++ b :: ys := by
  induction p with
  | nil =>
    rw [List.nil_append, List.nil_append]
    exact List.Lex.rel h
  | cons c t iht =>
    rw [List.cons_append, List.cons_append]
    exact List.Lex.cons iht

lemma toStringDigitData : ∀ i : Nat, i ≤ 9 →
    (toString i).data = [Char.ofNat (48 + i)] := by
  intro i hi
  interval_cases i <;> decide

lemma digitCharLt (i j : Nat) (hij : i < j) (hj : j ≤ 9) :
    Char.ofNat (48 + i) < Char.ofNat (48 + j) := by
  interval_cases j <;> interval_cases i <;> decide

lemma easystackFileName_lt (i j : Nat) (hi : i ≤ 9) (hj : j ≤ 9) (hij : i < j)
    (la lb : Option String) :
    easystackFileName i la < easystackFileName j lb := by
  have di := toStringDigitData i hi
  have dj := toStringDigitData j hj
  rw [String.lt_iff_toList_lt]
  show (easystackFileName i la).data < (easystackFileName j lb).data
  simp only [easystackFileName, String.data_append, di, dj, List.append_assoc,
    List.singleton_append, List.cons_append, List.nil_append]
  exact listLtAppend ['e', 'a', 's', 'y', 's', 't', 'a', 'c', 'k', '-'] _ _
    (digitCharLt i j hij hj)

/-- C6 (amended): for runs emitting at most nine batches, manifest
filenames sort lexicographically into replay order.  (Sequence numbers
are not zero-padded, so this fails from the tenth batch on.) -/
theorem manifest_filenames_sorted (maxbt : ℚ) (recs : List SWRec)
    (hlen : (runSegmentation maxbt recs).length ≤ 9) (i j : Nat) (hij : i < j)
    (bi bj : Batch)
    (hbi : (runSegmentation maxbt recs)[i]? = some bi)
    (hbj : (runSegmentation maxbt recs)[j]? = some bj) :
    bi.filename < bj.filename := by
  have hilt : i < (runSegmentation maxbt recs).length :=
    (List.getElem?_eq_some_iff.mp hbi).1
  have hjlt : j < (runSegmentation maxbt recs).length :=
    (List.getElem?_eq_some_iff.mp hbj).1
  have hbi2 : (runSegmentation maxbt recs).get ⟨i, hilt⟩ = bi := by
    have := (List.getElem?_eq_some_iff.mp hbi).2
    simpa using this
  have hbj2 : (runSegmentation maxbt recs).get ⟨j, hjlt⟩ = bj := by
    have := (List.getElem?_eq_some_iff.mp hbj).2
    simpa using this
  have hmi : bi ∈ runSegmentation maxbt recs := by
    rw [← hbi2]; exact List.get_mem _ _ hilt
  have hmj : bj ∈ runSegmentation maxbt recs := by
    rw [← hbj2]; exact List.get_mem _ _ hjlt
  have hsi : bi.seq = 1 + i := by
    rw [← hbi2]; exact runSegmentation_seq_get maxbt recs i hilt
  have hsj : bj.seq = 1 + j := by
    rw [← hbj2]; exact runSegmentation_seq_get maxbt recs j hjlt
  rw [runSegmentation_filename maxbt recs bi hmi,
    runSegmentation_filename maxbt recs bj hmj, hsi, hsj]
  exact easystackFileName_lt (1 + i) (1 + j) (by omega) (by omega) (by omega) _ _

/-- Witness for C6 at a concrete two-batch run. -/
theorem manifest_filenames_sorted_witness :
    (runSegmentation 240 [wErlang, wGcc]).length ≤ 9 ∧
      ∃ b0 b1, (runSegmentation 240 [wErlang, wGcc])[0]? = some b0 ∧
        (runSegmentation 240 [wErlang, wGcc])[1]? = some b1 ∧
        b0.filename < b1.filename := by
  have h1 : 1 < (runSegmentation 240 [wErlang, wGcc]).length := by decide
  have h0 : 0 < (runSegmentation 240 [wErlang, wGcc]).length := by omega
  have hlen9 : (runSegmentation 240 [wErlang, wGcc]).length ≤ 9 := by decide
  have e0 := List.getElem?_eq_getElem h0
  have e1 := List.getElem?_eq_getElem h1
  exact ⟨hlen9, _, _, e0, e1,
    manifest_filenames_sorted 240 [wErlang, wGcc] hlen9 0 1 (by omega) _ _ e0 e1⟩

/-- Counterexample to C6 as stated: with ten emitted batches, the second
batch's filename is NOT lexicographically smaller than the tenth's —
`easystack-10-…` sorts before `easystack-2-…`. -/
theorem manifest_filenames_not_sorted_at_ten :
    ((runSegmentation 240 cRecsTen).map Batch.filename)[1]? =
        some (easystackFileName 2 (some "v2")) ∧
      ((runSegmentation 240 cRecsTen).map Batch.filename)[9]? =
        some (easystackFileName 10 (some "v10")) ∧
      ¬ easystackFileName 2 (some "v2") < easystackFileName 10 (some "v10") := by
  refine ⟨by decide, by decide, ?_⟩
  rw [String.lt_iff_toList_lt]
  decide

/-! ### C7: the aggregation merge -/

lemma find?_map_replace (l : List (String × SWRec)) (k : String) (v : SWRec)
    (hany : l.any (fun p => p.1 == k) = true) :
    (l.map (fun p => if p.1 == k then (k, v) else p)).find? (fun p => p.1 == k) =
      some (k, v) := by
  induction l with
  | nil => simp at hany
  | cons p ps ih =>
    by_cases hp : (p.1 == k) = true
    · simp only [List.map_cons, if_pos hp, List.find?_cons]
      simp
    · have hpf : (p.1 == k) = false := by simpa using hp
      rw [List.map_cons, if_neg hp]
      rw [@List.find?_cons_of_neg _ (fun q => q.1 == k) p _ (by simpa using hp)]
      exact ih (by simpa [hpf] using hany)

lemma lookupReg_dictInsertKV_self (l : List (String × SWRec)) (k : String) (v : SWRec) :
    lookupReg (dictInsertKV l (k, v)) k = some v := by
  unfold dictInsertKV lookupReg
  by_cases hany : l.any (fun p => p.1 == (k, v).1) = true
  · rw [if_pos hany]
    rw [find?_map_replace l k v (by simpa using hany)]
    rfl
  · rw [if_neg hany]
    have hfalse : (l.any fun p => p.1 == k) = false := by
      rw [← Bool.not_eq_true]
      simpa using hany
    have hnone : l.find? (fun p => p.1 == k) = none := by
      rw [List.find?_eq_none]
      exact List.any_eq_false.mp hfalse
    rw [List.find?_append, hnone]
    simp [List.find?_cons]

lemma find?_map_replace_other (l : List (String × SWRec)) (kv : String × SWRec)
    (k : String) (hne : kv.1 ≠ k) :
    (l.map (fun p => if p.1 == kv.1 then kv else p)).find? (fun p => p.1 == k) =
      l.find? (fun p => p.1 == k) := by
  have hkvk : (((kv.1 : String) == k) = false) := by simpa using hne
  induction l with
  | nil => rfl
  | cons p ps ih =>
    by_cases hp : (p.1 == kv.1) = true
    · have hp1 : p.1 = kv.1 := by simpa using hp
      have hpf : (p.1 == k) = false := by simpa [hp1] using hne
      simp only [List.map_cons, if_pos hp, List.find?_cons, hkvk, hpf]
      exact ih
    · simp only [List.map_cons, if_neg hp, List.find?_cons]
      by_cases hk : (p.1 == k) = true
      · simp [hk]
      · have hkf : (p.1 == k) = false := by simpa using hk
        simp only [hkf]
        exact ih

lemma lookupReg_dictInsertKV_other (l : List (String × SWRec)) (kv : String × SWRec)
    (k : String) (hne : kv.1 ≠ k) :
    lookupReg (dictInsertKV l kv) k = lookupReg l k := by
  unfold dictInsertKV lookupReg
  split
  · rw [find?_map_replace_other l kv k hne]
  · rw [List.find?_append]
    have h1 : [kv].find? (fun p => p.1 == k) = none := by
      have hkvk : (((kv.1 : String) == k) = false) := by simpa using hne
      simp [List.find?_cons, hkvk]
    rw [h1]
    simp
lemma lookup_foldl_of_not_mem :
    ∀ (d : List (String × SWRec)) (k : String), k ∉ d.map Prod.fst →
      ∀ acc, lookupReg (d.foldl dictInsertKV acc) k = lookupReg acc k := by
  intro d
  induction d with
  | nil =>
    intro k _ acc
    rfl
  | cons p ps ih =>
    intro k hk acc
    simp only [List.map_cons, List.mem_cons] at hk
    push_neg at hk
    rw [List.foldl_cons]
    rw [ih k hk.2 _]
    exact lookupReg_dictInsertKV_other acc p k (fun h => hk.1 h.symm)

lemma lookupReg_foldl_dictInsertKV (d : List (String × SWRec)) (k : String) (v : SWRec) :
    ∀ acc, (d.map Prod.fst).Nodup → lookupReg d k = some v →
      lookupReg (d.foldl dictInsertKV acc) k = some v := by
  induction d with
  | nil =>
    intro acc _ hv
    simp [lookupReg] at hv
  | cons p ps ih =>
    intro acc hnd hv
    simp only [List.map_cons, List.nodup_cons] at hnd
    rw [List.foldl_cons]
    by_cases hp : (p.1 == k) = true
    · have hv2 : v = p.2 := by
        unfold lookupReg at hv
        rw [@List.find?_cons_of_pos _ (fun q => q.1 == k) p ps hp] at hv
        simpa using hv.symm
      have hp1 : p.1 = k := by simpa using hp
      have hk : k ∉ ps.map Prod.fst := by
        rw [← hp1]
        exact hnd.1
      rw [lookup_foldl_of_not_mem ps k hk _]
      rw [hv2]
      have hpk : p = (k, p.2) := Prod.ext hp1 rfl
      rw [hpk]
      exact lookupReg_dictInsertKV_self acc k p.2
    · have hv2 : lookupReg ps k = some v := by
        unfold lookupReg at hv ⊢
        rwa [@List.find?_cons_of_neg _ (fun q => q.1 == k) p ps hp] at hv
      exact ih _ hnd.2 hv2

/-- C7 (amended): the merge raises nothing — it is a total dict
comprehension in which the later partial mapping's record silently
overwrites the earlier one for a colliding key. -/
theorem merge_last_wins (d1 d2 : List (String × SWRec)) (k : String) (v : SWRec)
    (hnd : (d2.map Prod.fst).Nodup) (hv : lookupReg d2 k = some v) :
    lookupReg (mergeRegistries [d1, d2]) k = some v := by
  have hfold : ∀ (acc : List (String × SWRec)) (d : List (String × SWRec)),
      (if d.isEmpty then acc else d.foldl dictInsertKV acc) =
        d.foldl dictInsertKV acc := by
    intro acc d
    cases d <;> simp
  unfold mergeRegistries
  rw [List.foldl_cons, List.foldl_cons, List.foldl_nil, hfold, hfold]
  exact lookupReg_foldl_dictInsertKV d2 k v _ hnd hv

/-- Witness for the amended C7 merge behaviour. -/
theorem merge_last_wins_witness :
    ([(cKey, cV2)].map Prod.fst).Nodup ∧
      lookupReg [(cKey, cV2)] cKey = some cV2 ∧
      lookupReg (mergeRegistries [[(cKey, cV1)], [(cKey, cV2)]]) cKey = some cV2 := by
  have hnd : ([(cKey, cV2)].map Prod.fst).Nodup := by simp
  have hv : lookupReg [(cKey, cV2)] cKey = some cV2 := by
    simp [lookupReg, List.find?]
  exact ⟨hnd, hv, merge_last_wins [(cKey, cV1)] [(cKey, cV2)] cKey cV2 hnd hv⟩

/-- Counterexample to C7 as stated: merging two partial mappings that
share the key `cKey` does not raise — `mergeRegistries` is total and
returns the second worker's record, silently discarding the first. -/
theorem merge_overwrites_on_collision :
    mergeRegistries [[(cKey, cV1)], [(cKey, cV2)]] = [(cKey, cV2)] ∧ cV1 ≠ cV2 := by
  constructor
  · simp [mergeRegistries, dictInsertKV, cKey]
  · intro h
    have := congrArg SWRec.easybuild_version h
    simp [cV1, cV2] at this

/-! ### C5: what a rerun does to the output files -/

lemma strFoldlAppend (l : List String) :
    ∀ s : String, l.foldl (· ++ ·) s = s ++ l.foldl (· ++ ·) "" := by
  induction l with
  | nil =>
    intro s
    simp
  | cons a as ih =>
    intro s
    rw [List.foldl_cons, List.foldl_cons, ih (s ++ a), ih ("" ++ a),
      String.empty_append, String.append_assoc]

lemma strJoinCons (a : String) (l : List String) :
    String.join (a :: l) = a ++ String.join l := by
  unfold String.join
  rw [List.foldl_cons, strFoldlAppend l ("" ++ a), String.empty_append]

lemma foldl_applyWrite (ws : List (String × String)) :
    ∀ (fs : String → String) (f : String),
      (ws.foldl applyWrite fs) f = fs f ++ writesAt ws f := by
  induction ws with
  | nil =>
    intro fs f
    simp [writesAt, String.join]
  | cons w ws ih =>
    intro fs f
    rw [List.foldl_cons, ih]
    by_cases hf : f = w.1
    · simp [writesAt, List.filter_cons, hf, applyWrite, strJoinCons,
        String.append_assoc]
    · simp [writesAt, List.filter_cons, hf, applyWrite]

/-- C5 (amended): each run appends the same deterministic byte sequence
per output file, but the writer opens files in append mode, so a second
run on an unchanged tree appends a second copy instead of recreating the
file: after two runs every file holds exactly two copies of the single-run
content. -/
theorem pipeline_second_run_appends (maxbt : ℚ) (recs : List SWRec) (f : String) :
    runPipeline maxbt recs (runPipeline maxbt recs emptyFS) f =
      runPipeline maxbt recs emptyFS f ++ runPipeline maxbt recs emptyFS f := by
  unfold runPipeline
  rw [foldl_applyWrite, foldl_applyWrite]
  simp [emptyFS]

/-- Counterexample to C5 as stated: rerunning the pipeline on the same
one-record registry changes the manifest file (the second run appends a
duplicate copy), so the output is neither newly created nor byte-identical
across runs. -/
theorem pipeline_rerun_not_identical :
    runPipeline 240 [wErlang] (runPipeline 240 [wErlang] emptyFS)
        (easystackFileName 1 (some "5.0.0")) ≠
      runPipeline 240 [wErlang] emptyFS (easystackFileName 1 (some "5.0.0")) := by
  have hrun : runSegmentation 240 [wErlang] = [wBatch] := by
    simp [runSegmentation, flushState, initSeg, stepSeg, addRec, mkBatch,
      dictInsertRec, wErlang, wBatch]
  intro h
  unfold runPipeline at h
  rw [foldl_applyWrite, foldl_applyWrite] at h
  simp only [emptyFS, String.empty_append] at h
  -- h : the doubled content equals the single content; compare data lengths
  have h2 := congrArg (fun s => s.data.length) h
  simp only [String.data_append, List.length_append] at h2
  have hzero : (writesAt (runWrites 240 [wErlang])
      (easystackFileName 1 (some "5.0.0"))).data.length = 0 := by omega
  -- but the single run writes a manifest that starts with a nonempty header
  have hw : writesAt (runWrites 240 [wErlang]) (easystackFileName 1 (some "5.0.0")) =
      write_software_info [wErlang] (easystackFileName 1 (some "5.0.0")) 60 := by
    simp [writesAt, runWrites, hrun, wBatch, String.join]
  rw [hw] at hzero
  simp [write_software_info, String.data_append, List.length_append] at hzero

/-! ### C8: what the extraction failures actually report -/

/-- C8 (amended): extraction is fatal on every malformed input, but the
diagnostics do not name the path: a missing timestamp on the first or
last line raises `ValueError` naming the pattern and the offending line,
and a missing builder-version marker crashes `.group` on `None`
(`AttributeError`) with no diagnostic at all. -/
theorem extraction_failure_diagnostics (file : String) (first : String)
    (rest : List String) :
    (searchTimestamp first.data = none →
      get_build_duration file (first :: rest) = Except.error (malformedMsg first)) ∧
    (∀ g, searchTimestamp first.data = some g →
      searchTimestamp ((first :: rest).getLast (List.cons_ne_nil first rest)).data =
        none →
      get_build_duration file (first :: rest) =
        Except.error (malformedMsg ((first :: rest).getLast
          (List.cons_ne_nil first rest)))) ∧
    (∀ (vfile : String) (vlines : List String),
      searchVersion (vlines.headD "").data = none →
      get_easybuild_version vfile vlines = none) := by
  refine ⟨?_, ?_, ?_⟩
  · intro h
    simp [get_build_duration, h]
  · intro g hg hl
    simp [get_build_duration, hg, hl]
  · intro vfile vlines h
    unfold get_easybuild_version
    rw [h]
    rfl

/-- Witness for C8 on a concrete malformed log. -/
theorem extraction_failure_diagnostics_witness :
    searchTimestamp ("hello world").data = none ∧
      get_build_duration "/r/easybuild-zlib.log.bz2" ["hello world"] =
        Except.error (malformedMsg "hello world") :=
  ⟨by decide, (extraction_failure_diagnostics "/r/easybuild-zlib.log.bz2"
    "hello world" []).1 (by decide)⟩

set_option maxRecDepth 10000 in
/-- Counterexample to C8 as stated: the duration diagnostic does not
contain the offending path, and the missing-marker failure produces no
diagnostic value at all. -/
theorem diagnostics_do_not_name_path :
    get_build_duration "/r/easybuild-zlib.log.bz2" ["no timestamp here"] =
        Except.error (malformedMsg "no timestamp here") ∧
      ¬ ("/r/easybuild-zlib.log.bz2".data <:+: (malformedMsg "no timestamp here").data) ∧
      get_easybuild_version "/r/easybuild-zlib.log.bz2" ["no marker here"] = none := by
  refine ⟨rfl, by decide, rfl⟩

/-! ### C2: which attempt directory the crawler actually uses -/

set_option maxRecDepth 100000 in
/-- C2 (code bug): the crawler takes `os.listdir(...)[0]` and `[-1]`
without sorting.  On a directory listing returned in non-lexicographic
order it derives `initial_build_time` from whatever entry happens to be
listed first — here the chronologically *second* attempt `20250102_…` —
even though the lexicographically first attempt is `20250101_…`. -/
theorem crawler_uses_listdir_order :
    (processVersionDir "Foo" none vdListdirUnsorted).map
        (fun r => r.initial_build_time) =
      Except.ok (absMicro ⟨2025, 1, 2, 0, 0, 0, 0⟩) ∧
      strptimeDir "20250101_000000UTC" = some ⟨2025, 1, 1, 0, 0, 0, 0⟩ ∧
      ("20250101_000000UTC" : String) < "20250102_000000UTC" ∧
      absMicro ⟨2025, 1, 2, 0, 0, 0, 0⟩ ≠ absMicro ⟨2025, 1, 1, 0, 0, 0, 0⟩ := by
  refine ⟨rfl, by decide, ?_, by decide⟩
  rw [String.lt_iff_toList_lt]
  decide

/-! ### C9: the bootstrap override and replay-first position -/

lemma sortChrono_pairwise (recs : List SWRec) :
    (sortChrono recs).Pairwise
      (fun a b => a.initial_build_time ≤ b.initial_build_time) := by
  have htrans : ∀ a b c : SWRec,
      (fun a b : SWRec => decide (a.initial_build_time ≤ b.initial_build_time)) a b = true →
      (fun a b : SWRec => decide (a.initial_build_time ≤ b.initial_build_time)) b c = true →
      (fun a b : SWRec => decide (a.initial_build_time ≤ b.initial_build_time)) a c = true := by
    intro a b c hab hbc
    exact decide_eq_true
      (Nat.le_trans (of_decide_eq_true hab) (of_decide_eq_true hbc))
  have htotal : ∀ a b : SWRec,
      ((fun a b : SWRec => decide (a.initial_build_time ≤ b.initial_build_time)) a b ||
        (fun a b : SWRec => decide (a.initial_build_time ≤ b.initial_build_time)) b a) = true := by
    intro a b
    rcases Nat.le_total a.initial_build_time b.initial_build_time with h | h
    · simp [decide_eq_true h]
    · simp [decide_eq_true h]
  have h := List.sorted_mergeSort htrans htotal recs
  exact h.imp (fun hab => of_decide_eq_true hab)

lemma sorted_head_unique_min (recs : List SWRec) (r : SWRec)
    (hmem : r ∈ recs)
    (hlt : ∀ s ∈ recs, s ≠ r → r.initial_build_time < s.initial_build_time) :
    (sortChrono recs).head? = some r := by
  have hperm : (sortChrono recs).Perm recs := List.mergeSort_perm recs _
  have hrs : r ∈ sortChrono recs := hperm.mem_iff.mpr hmem
  have hpw := sortChrono_pairwise recs
  cases hsc : sortChrono recs with
  | nil =>
    rw [hsc] at hrs
    simp at hrs
  | cons h0 t =>
    rw [hsc] at hrs hpw hperm
    simp only [List.head?_cons, Option.some.injEq]
    by_cases he : h0 = r
    · exact he
    · have h0mem : h0 ∈ recs := hperm.subset (by simp)
      have hlt0 := hlt h0 h0mem he
      have hrt : r ∈ t := by
        rcases List.mem_cons.mp hrs with h | h
        · exact absurd h.symm he
        · exact h
      have hle := (List.pairwise_cons.mp hpw).1 r hrt
      omega

lemma runSegmentation_head_records (maxbt : ℚ) (recs : List SWRec)
    (hnd : (recs.map SWRec.name).Nodup) (hne : recs ≠ []) :
    ∃ b, (runSegmentation maxbt recs).head? = some b ∧
      b.records.head? = recs.head? := by
  have hjoin : ((runSegmentation maxbt recs).map Batch.records).flatten = recs := by
    have h := seg_join maxbt recs initSeg (by simp [initSeg]) hnd
    simpa [runSegmentation, initSeg] using h
  have hne2 := runSegmentation_ne_nil maxbt recs
  cases hL : runSegmentation maxbt recs with
  | nil => exact absurd hL hne2
  | cons b0 bs =>
    refine ⟨b0, rfl, ?_⟩
    have hb0ne : b0.records ≠ [] :=
      runSegmentation_records_ne_nil maxbt recs hne b0 (by rw [hL]; simp)
    rw [hL] at hjoin
    simp only [List.map_cons, List.flatten_cons] at hjoin
    rw [← hjoin]
    cases hbr : b0.records with
    | nil => exact absurd hbr hb0ne
    | cons x xs => simp

/-- C9: with `--eb-override-version` supplied, the EasyBuild record's
`initial_build_time` is forced to the 1970 sentinel and its
`easybuild_version` to the override string, so — the sentinel being
earlier than every real build time — the record lands in the first
position of the first emitted batch regardless of its real timestamp. -/
theorem eb_override_first_position (over : String) (maxbt : ℚ)
    (vd : VersionDirInput) (r : SWRec) (recs : List SWRec)
    (hov : processVersionDir "EasyBuild" (some over) vd = Except.ok r)
    (hmem : r ∈ recs)
    (hgt : ∀ s ∈ recs, s ≠ r → epochMicro < s.initial_build_time)
    (hnd : (recs.map SWRec.name).Nodup) :
    r.initial_build_time = epochMicro ∧ r.easybuild_version = over ∧
      ∃ b, (runSegmentation maxbt (sortChrono recs)).head? = some b ∧
        b.records.head? = some r := by
  have hforce : r.initial_build_time = epochMicro ∧ r.easybuild_version = over := by
    unfold processVersionDir at hov
    simp only [beq_self_eq_true, Option.isSome_some, Bool.and_self, if_true,
      Option.getD_some] at hov
    split at hov
    · simp at hov
    · split at hov
      · simp at hov
      · split at hov
        · simp at hov
        · split at hov
          · simp at hov
          · split at hov
            · simp at hov
            · split at hov
              · simp at hov
              · simp only [Except.ok.injEq] at hov
                subst hov
                exact ⟨rfl, rfl⟩
  have hne : recs ≠ [] := by
    intro h
    rw [h] at hmem
    simp at hmem
  have hperm : (sortChrono recs).Perm recs := List.mergeSort_perm recs _
  have hnd2 : ((sortChrono recs).map SWRec.name).Nodup :=
    ((hperm.map SWRec.name).symm).nodup hnd
  have hne2 : sortChrono recs ≠ [] := by
    intro h
    have hl := hperm.length_eq
    rw [h] at hl
    exact hne (List.length_eq_zero.mp hl.symm)
  have hhead : (sortChrono recs).head? = some r := by
    apply sorted_head_unique_min recs r hmem
    intro s hs hne'
    rw [hforce.1]
    exact hgt s hs hne'
  obtain ⟨b, hb1, hb2⟩ := runSegmentation_head_records maxbt (sortChrono recs) hnd2 hne2
  exact ⟨hforce.1, hforce.2, b, hb1, by rw [hb2, hhead]⟩

set_option maxRecDepth 100000 in
/-- Witness for C9 at a concrete override run over a two-record registry. -/
theorem eb_override_first_position_witness :
    processVersionDir "EasyBuild" (some "5.0.1") vdOverride = Except.ok wOverrideRec ∧
      wOverrideRec ∈ [wOverrideRec, wLate] ∧
      (∀ s ∈ [wOverrideRec, wLate], s ≠ wOverrideRec →
        epochMicro < s.initial_build_time) ∧
      (([wOverrideRec, wLate]).map SWRec.name).Nodup ∧
      (wOverrideRec.initial_build_time = epochMicro ∧
        wOverrideRec.easybuild_version = "5.0.1" ∧
        ∃ b, (runSegmentation 240 (sortChrono [wOverrideRec, wLate])).head? = some b ∧
          b.records.head? = some wOverrideRec) := by
  have hov : processVersionDir "EasyBuild" (some "5.0.1") vdOverride =
      Except.ok wOverrideRec := rfl
  have hmem : wOverrideRec ∈ [wOverrideRec, wLate] := by simp
  have hgt : ∀ s ∈ [wOverrideRec, wLate], s ≠ wOverrideRec →
      epochMicro < s.initial_build_time := by
    intro s hs hne
    rcases List.mem_cons.mp hs with h | h
    · exact absurd h hne
    · have hsl : s = wLate := by simpa using h
      subst hsl
      decide
  have hnd : (([wOverrideRec, wLate]).map SWRec.name).Nodup := by
    simp [wOverrideRec, wLate]
  exact ⟨hov, hmem, hgt, hnd,
    eb_override_first_position "5.0.1" 240 vdOverride wOverrideRec
      [wOverrideRec, wLate] hov hmem hgt hnd⟩

/-! ### C10: the duration is a signed difference, accepted unchecked -/

/-- C10: `get_build_duration` returns exactly
`(parse last) - (parse first)` in minutes with no ordering check, so a log
whose last timestamped line precedes its first yields a negative duration;
the segmentation step accepts such a record without flushing and the open
batch's accumulated duration strictly decreases. -/
theorem duration_signed_unchecked (file : String) (first : String)
    (rest : List String) (g1 g2 : List Char) (t1 t2 : Timestamp)
    (h1 : searchTimestamp first.data = some g1)
    (hp1 : strptimeLog (String.mk g1) = some t1)
    (h2 : searchTimestamp
      ((first :: rest).getLast (List.cons_ne_nil first rest)).data = some g2)
    (hp2 : strptimeLog (String.mk g2) = some t2) :
    get_build_duration file (first :: rest) = Except.ok (durMinutes t1 t2) ∧
      (absMicro t2 < absMicro t1 → durMinutes t1 t2 < 0) ∧
      (∀ (maxbt : ℚ) (st : SegState) (r : SWRec),
        st.local_software_info ≠ [] →
        st.previous_eb_ver = some r.easybuild_version →
        r.build_duration < 0 →
        ¬ maxbt < st.build_duration_current_easystack + r.build_duration →
        (stepSeg maxbt st r).outputs = st.outputs ∧
          (stepSeg maxbt st r).build_duration_current_easystack <
            st.build_duration_current_easystack) := by
  refine ⟨?_, ?_, ?_⟩
  · simp [get_build_duration, h1, h2, hp1, hp2]
  · intro hlt
    unfold durMinutes
    apply div_neg_of_neg_of_pos
    · rw [Int.cast_lt_zero, sub_neg]
      exact_mod_cast hlt
    · norm_num
  · intro maxbt st r hl hv hneg hnotover
    have hguard : ¬ (0 < st.local_software_info.length ∧
        (some r.easybuild_version ≠ st.previous_eb_ver ∨
          maxbt < st.build_duration_current_easystack + r.build_duration)) := by
      rintro ⟨-, hor | hover⟩
      · exact hor hv.symm
      · exact hnotover hover
    rw [stepSeg_of_keep maxbt st r hguard]
    constructor
    · rfl
    · simp only [addRec]
      linarith

set_option maxRecDepth 100000 in
/-- Witness for C10 on a log whose last timestamp precedes its first. -/
theorem duration_signed_unchecked_witness :
    searchTimestamp ("== 2025-10-30 14:29:09,573 start").data =
        some ("2025-10-30 14:29:09,573").data ∧
      strptimeLog "2025-10-30 14:29:09,573" =
        some ⟨2025, 10, 30, 14, 29, 9, 573000⟩ ∧
      searchTimestamp ("== 2025-10-30 12:59:09,573 end").data =
        some ("2025-10-30 12:59:09,573").data ∧
      strptimeLog "2025-10-30 12:59:09,573" =
        some ⟨2025, 10, 30, 12, 59, 9, 573000⟩ ∧
      get_build_duration "/r/easybuild-Foo.log.bz2"
          ["== 2025-10-30 14:29:09,573 start", "== 2025-10-30 12:59:09,573 end"] =
        Except.ok (durMinutes ⟨2025, 10, 30, 14, 29, 9, 573000⟩
          ⟨2025, 10, 30, 12, 59, 9, 573000⟩) ∧
      durMinutes ⟨2025, 10, 30, 14, 29, 9, 573000⟩
          ⟨2025, 10, 30, 12, 59, 9, 573000⟩ < 0 ∧
      (stepSeg 240 stW rNeg).outputs = stW.outputs ∧
      (stepSeg 240 stW rNeg).build_duration_current_easystack <
        stW.build_duration_current_easystack := by
  have e1 : searchTimestamp ("== 2025-10-30 14:29:09,573 start").data =
      some ("2025-10-30 14:29:09,573").data := by decide
  have e2 : strptimeLog "2025-10-30 14:29:09,573" =
      some ⟨2025, 10, 30, 14, 29, 9, 573000⟩ := by decide
  have e3 : searchTimestamp ("== 2025-10-30 12:59:09,573 end").data =
      some ("2025-10-30 12:59:09,573").data := by decide
  have e4 : strptimeLog "2025-10-30 12:59:09,573" =
      some ⟨2025, 10, 30, 12, 59, 9, 573000⟩ := by decide
  have hmain := duration_signed_unchecked "/r/easybuild-Foo.log.bz2"
    "== 2025-10-30 14:29:09,573 start" ["== 2025-10-30 12:59:09,573 end"]
    ("2025-10-30 14:29:09,573").data ("2025-10-30 12:59:09,573").data
    ⟨2025, 10, 30, 14, 29, 9, 573000⟩ ⟨2025, 10, 30, 12, 59, 9, 573000⟩
    e1 e2 e3 e4
  have hstep := hmain.2.2 240 stW rNeg (by simp [stW]) rfl
    (by norm_num [rNeg]) (by norm_num [stW, rNeg])
  exact ⟨e1, e2, e3, e4, hmain.1, hmain.2.1 (by decide), hstep.1, hstep.2⟩

end EESSIReproduce
